import Mathlib

set_option maxRecDepth 16384

/-! Verification of the Touhou-Calendar generator (src/main.py) against its
design specification.

Strings are modelled as `List Char` (Python `str` is a sequence of Unicode
code points, as is `List Char` here).  Byte strings are `List Nat` with every
element below 256.  Fallible Python code (exceptions) is modelled with
`Except PyErr`.  File I/O is factored out: the loader takes the parsed
per-month document lists as an argument.
-/

/-- Python `str.replace(pat, repl)` restricted to a one-character pattern.
With a single-character pattern the left-to-right scan of `str.replace`
cannot overlap, so it rewrites each occurrence of the character
independently. All four `replace` calls in `ics_escape` have
one-character patterns. -/
def pyReplaceChar (pat : Char) (repl : List Char) : List Char → List Char
  | [] => []
  | c :: rest => (if c = pat then repl else [c]) ++ pyReplaceChar pat repl rest

/-- Model of `ics_escape`, src/main.py lines 61-67: four sequential `str.replace`
calls, backslash first, then semicolon, comma and newline. -/
def ics_escape (text : List Char) : List Char :=
  pyReplaceChar '\n' ("\\n".data) <|
    pyReplaceChar ',' ("\\,".data) <|
      pyReplaceChar ';' ("\\;".data) <|
        pyReplaceChar '\\' ("\\\\".data) text

/-- Modelled from the spec (§4.2, claim C3): the per-character escaping map
the spec asserts `ics_escape` to implement.  Used only for comparison with
the source-derived `ics_escape`. -/
def specEscapeChar (c : Char) : List Char :=
  if c = '\\' then ("\\\\".data)
  else if c = ';' then ("\\;".data)
  else if c = ',' then ("\\,".data)
  else if c = '\n' then ("\\n".data)
  else [c]

/-- The spec's escape function: the homomorphic extension of
`specEscapeChar` to strings. -/
def specEscape (s : List Char) : List Char :=
  (s.map specEscapeChar).flatten

/-- UTF-8 encoding of one Unicode scalar value (what Python's
`str.encode("utf-8")` emits per code point), written arithmetically:
`192 + n / 64` is the two-byte lead `0b110xxxxx`, `128 + n % 64` a
continuation byte `0b10xxxxxx`, and so on. -/
def utf8Char (c : Char) : List Nat :=
  if c.toNat < 128 then [c.toNat]
  else if c.toNat < 2048 then [192 + c.toNat / 64, 128 + c.toNat % 64]
  else if c.toNat < 65536 then
    [224 + c.toNat / 4096, 128 + (c.toNat / 64) % 64, 128 + c.toNat % 64]
  else
    [240 + c.toNat / 262144, 128 + (c.toNat / 4096) % 64,
      128 + (c.toNat / 64) % 64, 128 + c.toNat % 64]

/-- Model of `line.encode("utf-8")`: the byte string of a Python `str`. -/
def utf8Str (s : List Char) : List Nat :=
  (s.map utf8Char).flatten

/-- The continuation-byte test of src/main.py line 79:
`(encoded[split_at] & 0xC0) == 0x80`. -/
def isCont (b : Nat) : Bool := b &&& 192 == 128

/-- Indexing a byte string (Python `encoded[i]`; all uses are in bounds). -/
def byteAt (l : List Nat) (i : Nat) : Nat := l.getD i 0

/-- The inner `while` of src/main.py lines 78-80: starting from `split_at`,
retreat while the byte at `split_at` is a continuation byte and
`split_at > 0`. -/
def retreat (encoded : List Nat) : Nat → Nat
  | 0 => 0
  | k + 1 => if isCont (byteAt encoded (k + 1)) then retreat encoded k else k + 1

/-- The split point chosen for one folding iteration (`split_at = 75` then
the retreat loop). -/
def findSplit (encoded : List Nat) : Nat := retreat encoded 75

/-- The chunking performed by the outer `while` of src/main.py lines 76-83:
slices of the byte buffer, each ending at a retreat-adjusted split point,
followed by the final remainder.  When the computed split point is 0 the
Python loop would make no progress and never terminate; that branch returns
the remaining buffer whole here and is proved unreachable for valid UTF-8
input (the first byte of an encoded string is never a continuation byte,
claim C10). -/
def foldChunksAux : Nat → List Nat → List (List Nat)
  | 0, encoded => [encoded]
  | fuel + 1, encoded =>
    if encoded.length ≤ 75 then [encoded]
    else if findSplit encoded = 0 then [encoded]
    else encoded.take (findSplit encoded) :: foldChunksAux fuel (encoded.drop (findSplit encoded))

def foldChunks (encoded : List Nat) : List (List Nat) :=
  foldChunksAux encoded.length encoded

/-- UTF-8 decoding (Python `bytes.decode("utf-8")`), written with a fuel
argument for structural recursion; one unit of fuel is spent per decoded
code point, so `fuel = length` always suffices.  Python raises
`UnicodeDecodeError` on malformed input; this total model emits U+0000
there instead.  Every call site below decodes chunks that are proved to be
encoder output, so the malformed branches are unreachable in the verified
pipeline. -/
def utf8Step (b : Nat) (rest : List Nat) : Char × List Nat :=
  if b < 128 then (Char.ofNat b, rest)
  else if b < 192 then (Char.ofNat 0, rest)
  else if b < 224 then
    match rest with
    | b2 :: rest2 => (Char.ofNat ((b - 192) * 64 + (b2 - 128)), rest2)
    | [] => (Char.ofNat 0, [])
  else if b < 240 then
    match rest with
    | b2 :: b3 :: rest3 => (Char.ofNat ((b - 224) * 4096 + (b2 - 128) * 64 + (b3 - 128)), rest3)
    | _ => (Char.ofNat 0, [])
  else
    match rest with
    | b2 :: b3 :: b4 :: rest4 =>
        (Char.ofNat ((b - 240) * 262144 + (b2 - 128) * 4096 + (b3 - 128) * 64 + (b4 - 128)),
          rest4)
    | _ => (Char.ofNat 0, [])

def utf8DecodeAux : Nat → List Nat → List Char
  | 0, _ => []
  | _ + 1, [] => []
  | fuel + 1, b :: rest =>
    (utf8Step b rest).1 :: utf8DecodeAux fuel (utf8Step b rest).2

/-- Model of `bytes.decode("utf-8")` on a byte string. -/
def utf8Decode (l : List Nat) : List Char := utf8DecodeAux l.length l

/-- Model of `ics_fold_line`, src/main.py lines 70-84: return short lines
unchanged; otherwise join the decoded chunks with CRLF plus one space. -/
def ics_fold_line (line : List Char) : List Char :=
  if (utf8Str line).length ≤ 75 then line
  else List.intercalate ("\r\n ".data) ((foldChunks (utf8Str line)).map utf8Decode)

/-- Split a string at every (non-overlapping, leftmost-first) CRLF pair:
the physical content lines of an ICS text. -/
def splitCRLF : List Char → List (List Char)
  | [] => [[]]
  | '\r' :: '\n' :: rest => [] :: splitCRLF rest
  | c :: rest =>
    match splitCRLF rest with
    | [] => [[c]]
    | l :: ls => (c :: l) :: ls

/-! SHA-256 (FIPS 180-4), the `hashlib.sha256` call in `generate_uid`,
implemented over `Nat` with explicit reduction modulo `2 ^ 32`. -/

/-- Reduce to a 32-bit word. -/
def w32 (x : Nat) : Nat := x % 4294967296

/-- Right rotation of a 32-bit word, written arithmetically. -/
def rotr (n x : Nat) : Nat := x / 2 ^ n + x % 2 ^ n * 2 ^ (32 - n)

def shaCh (x y z : Nat) : Nat := (x &&& y) ^^^ ((4294967295 ^^^ x) &&& z)

def shaMaj (x y z : Nat) : Nat := (x &&& y) ^^^ (x &&& z) ^^^ (y &&& z)

def bigSigma0 (x : Nat) : Nat := rotr 2 x ^^^ rotr 13 x ^^^ rotr 22 x

def bigSigma1 (x : Nat) : Nat := rotr 6 x ^^^ rotr 11 x ^^^ rotr 25 x

def smallSigma0 (x : Nat) : Nat := rotr 7 x ^^^ rotr 18 x ^^^ x / 8

def smallSigma1 (x : Nat) : Nat := rotr 17 x ^^^ rotr 19 x ^^^ x / 1024

def shaK : List Nat :=
  [1116352408, 1899447441, 3049323471, 3921009573, 961987163,
   1508970993, 2453635748, 2870763221, 3624381080, 310598401,
   607225278, 1426881987, 1925078388, 2162078206, 2614888103,
   3248222580, 3835390401, 4022224774, 264347078, 604807628,
   770255983, 1249150122, 1555081692, 1996064986, 2554220882,
   2821834349, 2952996808, 3210313671, 3336571891, 3584528711,
   113926993, 338241895, 666307205, 773529912, 1294757372,
   1396182291, 1695183700, 1986661051, 2177026350, 2456956037,
   2730485921, 2820302411, 3259730800, 3345764771, 3516065817,
   3600352804, 4094571909, 275423344, 430227734, 506948616,
   659060556, 883997877, 958139571, 1322822218, 1537002063,
   1747873779, 1955562222, 2024104815, 2227730452, 2361852424,
   2428436474, 2756734187, 3204031479, 3329325298]

def shaH0 : List Nat :=
  [1779033703, 3144134277, 1013904242, 2773480762,
   1359893119, 2600822924, 528734635, 1541459225]

/-- The `k` bytes of `n`, big-endian. -/
def toBytesBE : Nat → Nat → List Nat
  | 0, _ => []
  | k + 1, n => toBytesBE k (n / 256) ++ [n % 256]

/-- Big-endian 32-bit words from bytes. -/
def bytesToWords : List Nat → List Nat
  | b0 :: b1 :: b2 :: b3 :: rest =>
      (((b0 * 256 + b1) * 256 + b2) * 256 + b3) :: bytesToWords rest
  | _ => []

def schedStep (w : List Nat) (_t : Nat) : List Nat :=
  w ++ [w32 (smallSigma1 (byteAt w (w.length - 2)) + byteAt w (w.length - 7) +
    smallSigma0 (byteAt w (w.length - 15)) + byteAt w (w.length - 16))]

def shaSchedule (ws : List Nat) : List Nat := (List.range 48).foldl schedStep ws

def shaRound (w : List Nat) (st : List Nat) (t : Nat) : List Nat :=
  match st with
  | [a, b, c, d, e, f, g, h] =>
    [w32 (w32 (h + bigSigma1 e + shaCh e f g + byteAt shaK t + byteAt w t) +
        w32 (bigSigma0 a + shaMaj a b c)),
      a, b, c,
      w32 (d + w32 (h + bigSigma1 e + shaCh e f g + byteAt shaK t + byteAt w t)),
      e, f, g]
  | _ => st

def shaCompress (H : List Nat) (block : List Nat) : List Nat :=
  List.zipWith (fun x y => w32 (x + y)) H
    ((List.range 64).foldl (shaRound (shaSchedule (bytesToWords block))) H)

def chunks64Aux : Nat → List Nat → List (List Nat)
  | 0, _ => []
  | _ + 1, [] => []
  | fuel + 1, l => l.take 64 :: chunks64Aux fuel (l.drop 64)

def chunks64 (l : List Nat) : List (List Nat) := chunks64Aux l.length l

/-- SHA-256 padding: `0x80`, zeros to 56 mod 64, 8-byte big-endian bit
length. -/
def sha256pad (msg : List Nat) : List Nat :=
  msg ++ [128] ++ List.replicate ((119 - msg.length % 64) % 64) 0 ++
    toBytesBE 8 (msg.length * 8)

def sha256bytes (msg : List Nat) : List Nat :=
  (((chunks64 (sha256pad msg)).foldl shaCompress shaH0).map (toBytesBE 4)).flatten

def hexChar (n : Nat) : Char := ("0123456789abcdef".data).getD n '0'

def bytesToHex (bytes : List Nat) : List Char :=
  (bytes.map (fun b => [hexChar (b / 16), hexChar (b % 16)])).flatten

/-- Model of `hashlib.sha256(x).hexdigest()`. -/
def sha256hex (msg : List Nat) : List Char := bytesToHex (sha256bytes msg)

/-! The data model: YAML values, documents, errors, and the
`CalendarEvent` dataclass of src/main.py lines 15-24. -/

/-- YAML scalar and sequence values as produced by `yaml.safe_load_all`
for this repository's inputs.  Nested mappings are not inspected by any
code path and are not modelled. -/
inductive Yaml where
  | null : Yaml
  | int (n : Int) : Yaml
  | str (s : List Char) : Yaml
  | seq (xs : List Yaml) : Yaml

/-- One parsed YAML mapping block (a Python `dict` with string keys). -/
abbrev Doc := List (List Char × Yaml)

/-- The Python exceptions the modelled code can raise: `KeyError` from
`doc[key]` (src/main.py lines 37-41) and `ValueError` from `date(...)`
(line 94).  `typeMismatch` is an artifact of the typed embedding: Python
would carry a wrongly-typed field along and only fail later during
rendering; no claim exercises that branch. -/
inductive PyErr where
  | keyError (k : List Char)
  | typeMismatch (k : List Char)
  | valueError

/-- The `CalendarEvent` dataclass. -/
structure CalendarEvent where
  month : Int
  day : Int
  name : List Char
  message : List Char
  explanation : List Char
  explanation_short : Option (List Char)
  characters : List (List Char)
  citations : List Yaml

/-- Python `doc.get(key)` / `doc[key]` lookup on a parsed mapping. -/
def ylookup : Doc → List Char → Option Yaml
  | [], _ => none
  | (k, v) :: rest, key => if k = key then some v else ylookup rest key

def getInt : Yaml → Option Int
  | .int n => some n
  | _ => none

def getStr : Yaml → Option (List Char)
  | .str s => some s
  | _ => none

/-- Lookup `doc[key]` for a required integer field: missing key raises
`KeyError(key)` exactly as Python does. -/
def reqInt (doc : Doc) (key : List Char) : Except PyErr Int :=
  match ylookup doc key with
  | none => Except.error (PyErr.keyError key)
  | some v =>
    match getInt v with
    | some n => Except.ok n
    | none => Except.error (PyErr.typeMismatch key)

/-- Lookup `doc[key]` for a required string field. -/
def reqStr (doc : Doc) (key : List Char) : Except PyErr (List Char) :=
  match ylookup doc key with
  | none => Except.error (PyErr.keyError key)
  | some v =>
    match getStr v with
    | some s => Except.ok s
    | none => Except.error (PyErr.typeMismatch key)

/-- Extract the string elements of a sequence; the source stores the list
elements unchecked (non-strings would only fail later in `", ".join`), so
the `none` branch is an unexercised artifact of the typed embedding. -/
def asStrList : List Yaml → Option (List (List Char))
  | [] => some []
  | Yaml.str s :: rest => (asStrList rest).map (fun t => s :: t)
  | _ => none

/-- The `raw_characters` local of src/main.py lines 32-34: `doc.get` result
coerced to `[]` when absent or not a sequence. -/
def rawCharacters (doc : Doc) : List Yaml :=
  match ylookup doc ("characters".data) with
  | some (Yaml.seq xs) => xs
  | _ => []

/-- The `raw_citations` local of src/main.py lines 28-30. -/
def rawCitations (doc : Doc) : List Yaml :=
  match ylookup doc ("citations".data) with
  | some (Yaml.seq xs) => xs
  | _ => []

/-- Model of `parse_event`, src/main.py lines 27-45.  `citations` and
`characters` are coerced to `[]` when absent or not a sequence (lines
28-34); the required fields are looked up in source order, so the first
missing key determines the `KeyError`. -/
def parse_event (doc : Doc) : Except PyErr CalendarEvent := do
  let month ← reqInt doc ("month".data)
  let day ← reqInt doc ("day".data)
  let name ← reqStr doc ("name".data)
  let message ← reqStr doc ("message".data)
  let explanation ← reqStr doc ("explanation".data)
  let characters ←
    match asStrList (rawCharacters doc) with
    | some cs => Except.ok cs
    | none => Except.error (PyErr.typeMismatch ("characters".data))
  Except.ok ⟨month, day, name, message, explanation,
    (match ylookup doc ("explanation_short".data) with
      | some (Yaml.str s) => some s
      | _ => none),
    characters, rawCitations doc⟩

/-- The sort key of src/main.py line 57: the tuple `(month, day, name)`. -/
def eventKey (e : CalendarEvent) : Int × Int × List Char := (e.month, e.day, e.name)

/-- Python string `<=`: lexicographic comparison by code point. -/
def strLE : List Char → List Char → Bool
  | [], _ => true
  | _ :: _, [] => false
  | a :: as, b :: bs => if a < b then true else if b < a then false else strLE as bs

/-- Python tuple `<=` on the sort key `(month, day, name)`. -/
def keyLE (x y : CalendarEvent) : Bool :=
  if x.month < y.month then true
  else if y.month < x.month then false
  else if x.day < y.day then true
  else if y.day < x.day then false
  else strLE x.name y.name

def keyRel (x y : CalendarEvent) : Prop := keyLE x y = true

instance keyRelDecidable : DecidableRel keyRel :=
  fun x y => instDecidableEqBool (keyLE x y) true

/-- Model of `events.sort(key=...)` (src/main.py
line 57).  Python's `list.sort` is a stable sort by the key; every stable
sort of a total preorder computes the same list, so it is modelled by
stable insertion sort. -/
def sortEvents (evs : List CalendarEvent) : List CalendarEvent :=
  List.insertionSort keyRel evs

/-- Model of `load_events`, src/main.py lines 48-58, with the filesystem
factored out: `sources` holds the parsed YAML document streams of the
month files in month order (`1.yaml` first).  A `none` entry models an
empty YAML document, which the code skips (`if doc is None: continue`). -/
def load_events_from (sources : List (List (Option Doc))) :
    Except PyErr (List CalendarEvent) := do
  let events ← (sources.flatten.filterMap id).mapM parse_event
  Except.ok (sortEvents events)

/-! The VEVENT and VCALENDAR builders, src/main.py lines 87-131. -/

/-- Python `"%02d" % n` (via the f-string `{n:02d}`): decimal rendering
zero-padded to at least two characters. -/
def pad2 (n : Int) : List Char :=
  if (toString n).data.length < 2 then '0' :: (toString n).data else (toString n).data

def REFERENCE_YEAR : Int := 2024

/-- Model of `generate_uid`, src/main.py lines 87-90. -/
def generate_uid (event : CalendarEvent) : List Char :=
  (sha256hex (utf8Str (pad2 event.month ++ ("-".data) ++ pad2 event.day ++
    ("-".data) ++ event.name))).take 16 ++ ("@touhou-calendar".data)

/-- The whitespace set of Python `str.strip()` (Unicode whitespace). -/
def pySpaceChars : List Char :=
  [' ', '\t', '\n', '\x0b', '\x0c', '\r', '\x1c', '\x1d', '\x1e', '\x1f',
   '\x85', '\xa0', ' ', ' ', ' ', ' ', ' ',
   ' ', ' ', ' ', ' ', ' ', ' ', ' ',
   ' ', ' ', ' ', ' ', '　']

def isPySpace (c : Char) : Bool := pySpaceChars.contains c

/-- Python `str.strip()`. -/
def pyStrip (s : List Char) : List Char :=
  ((s.dropWhile isPySpace).reverse.dropWhile isPySpace).reverse

/-- Model of `event.explanation_short or event.explanation` (src/main.py line 98):
Python `or` falls through both when `explanation_short` is `None` and when
it is the empty string, which is falsy. -/
def chosen_explanation (e : CalendarEvent) : List Char :=
  match e.explanation_short with
  | some s => if s = [] then e.explanation else s
  | none => e.explanation

/-- Model of the characters line `"Characters: " + ", ".join(...)` (src/main.py line 101). -/
def characters_line (e : CalendarEvent) : List Char :=
  ("Characters: ".data) ++ List.intercalate (", ".data) e.characters

/-- The `description_parts` list of src/main.py lines 97-101: the message,
the stripped chosen explanation, and the characters line when the
characters list is non-empty (Python list truthiness). -/
def description_parts (e : CalendarEvent) : List (List Char) :=
  [e.message, pyStrip (chosen_explanation e)] ++
    (if e.characters = [] then [] else [characters_line e])

/-- Line 102: each part is stripped, escaped, and the parts are joined
with the literal four characters `\n\n`. -/
def build_description (e : CalendarEvent) : List Char :=
  List.intercalate ("\\n\\n".data) ((description_parts e).map (fun p => ics_escape (pyStrip p)))

/-- Day count per month in the fixed leap reference year 2024. -/
def days_in_month (m : Int) : Int :=
  if m = 1 then 31 else if m = 2 then 29 else if m = 3 then 31
  else if m = 4 then 30 else if m = 5 then 31 else if m = 6 then 30
  else if m = 7 then 31 else if m = 8 then 31 else if m = 9 then 30
  else if m = 10 then 31 else if m = 11 then 30 else 31

/-- Validity check performed by `datetime.date(REFERENCE_YEAR, m, d)`. -/
def isValidDate (m d : Int) : Bool :=
  decide (1 ≤ m) && decide (m ≤ 12) && decide (1 ≤ d) && decide (d ≤ days_in_month m)

/-- Model of `dt.strftime("%Y%m%d")` for `date(REFERENCE_YEAR, m, d)`. -/
def format_date (m d : Int) : List Char :=
  (toString REFERENCE_YEAR).data ++ pad2 m ++ pad2 d

/-- Model of `build_vevent`, src/main.py lines 93-117; `date(...)` raises
`ValueError` on an invalid month/day pair. -/
def build_vevent (event : CalendarEvent) : Except PyErr (List Char) :=
  if isValidDate event.month event.day then
    Except.ok (List.intercalate ("\r\n".data)
      (([("BEGIN:VEVENT".data),
        ("UID:".data) ++ generate_uid event,
        ("DTSTART;VALUE=DATE:".data) ++ format_date event.month event.day,
        ("SUMMARY:".data) ++ ics_escape event.name,
        ("DESCRIPTION:".data) ++ build_description event,
        ("RRULE:FREQ=YEARLY".data),
        ("TRANSP:TRANSPARENT".data),
        ("END:VEVENT".data)]).map ics_fold_line))
  else Except.error PyErr.valueError

/-- Model of `build_ics`, src/main.py lines 120-131. -/
def build_ics (events : List CalendarEvent) : Except PyErr (List Char) := do
  let vevents ← events.mapM build_vevent
  Except.ok (List.intercalate ("\r\n".data)
      [("BEGIN:VCALENDAR".data), ("VERSION:2.0".data),
       ("PRODID:-//Touhou Calendar//Touhou Calendar//EN".data),
       ("CALSCALE:GREGORIAN".data), ("METHOD:PUBLISH".data),
       ("X-WR-CALNAME:Touhou Calendar".data)] ++
    ("\r\n".data) ++ List.intercalate ("\r\n".data) vevents ++
    ("\r\n".data) ++ ("END:VCALENDAR".data) ++ ("\r\n".data))

/-- Model of `main()` without the I/O: load, then build; the returned string is
what `main` writes to the output file, so an error value means the run
aborts with no output produced. -/
def main_run (sources : List (List (Option Doc))) : Except PyErr (List Char) := do
  let events ← load_events_from sources
  build_ics events

/-! Concrete inputs used by the claims. -/

/-- The single-event input of the end-to-end test: February 29,
"Miyako Day". -/
def miyakoEvent : CalendarEvent :=
  ⟨2, 29, ("Miyako Day".data), ("M".data), ("E".data), none, [], []⟩

/-- The calendar text `build_ics [miyakoEvent]` is expected to produce
(UID hash cross-checked against `sha256sum` of `02-29-Miyako Day`). -/
def miyakoExpectedIcs : List Char :=
  ("BEGIN:VCALENDAR\r\nVERSION:2.0\r\nPRODID:-//Touhou Calendar//Touhou Calendar//EN\r\nCALSCALE:GREGORIAN\r\nMETHOD:PUBLISH\r\nX-WR-CALNAME:Touhou Calendar\r\nBEGIN:VEVENT\r\nUID:1246b52e625d9167@touhou-calendar\r\nDTSTART;VALUE=DATE:20240229\r\nSUMMARY:Miyako Day\r\nDESCRIPTION:M\\n\\nE\r\nRRULE:FREQ=YEARLY\r\nTRANSP:TRANSPARENT\r\nEND:VEVENT\r\nEND:VCALENDAR\r\n".data)

def eventB31 : CalendarEvent := ⟨3, 1, ("B".data), ("m".data), ("e".data), none, [], []⟩

def eventA15 : CalendarEvent := ⟨1, 5, ("A".data), ("m".data), ("e".data), none, [], []⟩

def eventZ15 : CalendarEvent := ⟨1, 5, ("Z".data), ("m".data), ("e".data), none, [], []⟩

def docOf (e : CalendarEvent) : Doc :=
  [(("month".data), Yaml.int e.month), (("day".data), Yaml.int e.day),
   (("name".data), Yaml.str e.name), (("message".data), Yaml.str e.message),
   (("explanation".data), Yaml.str e.explanation)]

/-- A block lacking the required `message` field. -/
def docNoMessage : Doc :=
  [(("month".data), Yaml.int 1), (("day".data), Yaml.int 5),
   (("name".data), Yaml.str ("A".data)), (("explanation".data), Yaml.str ("e".data))]

/-- A block whose `characters` field is a string, not a sequence. -/
def docCharsNotList : Doc :=
  [(("month".data), Yaml.int 1), (("day".data), Yaml.int 2),
   (("name".data), Yaml.str ("N".data)), (("message".data), Yaml.str ("m".data)),
   (("explanation".data), Yaml.str ("e".data)),
   (("characters".data), Yaml.str ("not a list".data))]

/-- A block in which both `characters` and `citations` are present but
neither is a sequence. -/
def docBothNonSeq : Doc :=
  [(("month".data), Yaml.int 1), (("day".data), Yaml.int 2),
   (("name".data), Yaml.str ("N".data)), (("message".data), Yaml.str ("m".data)),
   (("explanation".data), Yaml.str ("e".data)),
   (("characters".data), Yaml.str ("not a list".data)),
   (("citations".data), Yaml.str ("nope".data))]

/-- An event whose `explanation_short` is present but empty. -/
def emptyShortEvent : CalendarEvent :=
  ⟨1, 1, ("N".data), ("M".data), ("E".data), some [], [], []⟩

theorem pyReplaceChar_append (pat : Char) (repl : List Char) :
    ∀ xs ys, pyReplaceChar pat repl (xs ++ ys) =
      pyReplaceChar pat repl xs ++ pyReplaceChar pat repl ys := by
  intro xs ys
  induction xs with
  | nil => rfl
  | cons c rest ih => simp [pyReplaceChar, ih]

theorem ics_escape_append (xs ys : List Char) :
    ics_escape (xs ++ ys) = ics_escape xs ++ ics_escape ys := by
  simp [ics_escape, pyReplaceChar_append]

theorem ics_escape_single (c : Char) : ics_escape [c] = specEscapeChar c := by
  by_cases h1 : c = '\\'
  · subst h1; rfl
  · by_cases h2 : c = ';'
    · subst h2; rfl
    · by_cases h3 : c = ','
      · subst h3; rfl
      · by_cases h4 : c = '\n'
        · subst h4; rfl
        · simp [ics_escape, pyReplaceChar, specEscapeChar, h1, h2, h3, h4]

/-- C3: `ics_escape` coincides with the spec's per-character homomorphism,
mapping `\` to `\\`, `;` to `\;`, `,` to `\,`, newline to the two characters
`\n`, and every other character to itself; because the backslash substitution
runs first, the backslashes introduced by the later substitutions are never
re-escaped, and in particular escaping `a,b` yields `a\,b`. -/
theorem ics_escape_is_spec_homomorphism :
    (∀ s : List Char, ics_escape s = specEscape s) ∧
      ics_escape ("a,b".data) = ("a\\,b".data) := by
  constructor
  · intro s
    induction s with
    | nil => rfl
    | cons c rest ih =>
      have h : c :: rest = [c] ++ rest := rfl
      rw [h, ics_escape_append, ih, ics_escape_single]
      simp [specEscape]
  · decide

theorem isCont_iff : ∀ b : Nat, b < 256 → (isCont b = true ↔ 128 ≤ b ∧ b < 192) := by
  decide

theorem isCont_true_of {b : Nat} (h1 : 128 ≤ b) (h2 : b < 192) : isCont b = true :=
  (isCont_iff b (by omega)).mpr ⟨h1, h2⟩

theorem isCont_false_of {b : Nat} (hb : b < 256) (h : b < 128 ∨ 192 ≤ b) : isCont b = false := by
  cases hc : isCont b
  · rfl
  · exact absurd ((isCont_iff b hb).mp hc) (by omega)

theorem char_toNat_lt (c : Char) : c.toNat < 1114112 := by
  rcases c.valid with h | h
  · exact Nat.lt_trans h (by norm_num)
  · exact h.2

/-- Structure of one encoded code point: a non-continuation lead byte
followed by at most three continuation bytes. -/
theorem utf8Char_spec (c : Char) :
    ∃ b bs, utf8Char c = b :: bs ∧ isCont b = false ∧
      (∀ x ∈ bs, isCont x = true) ∧ bs.length ≤ 3 := by
  have hn := char_toNat_lt c
  by_cases h1 : c.toNat < 128
  · refine ⟨c.toNat, [], ?_, isCont_false_of (by omega) (Or.inl h1), by simp, by simp⟩
    simp [utf8Char, h1]
  · by_cases h2 : c.toNat < 2048
    · refine ⟨192 + c.toNat / 64, [128 + c.toNat % 64], ?_, ?_, ?_, by simp⟩
      · simp [utf8Char, h1, h2]
      · exact isCont_false_of (by omega) (Or.inr (by omega))
      · intro x hx
        simp at hx
        subst hx
        exact isCont_true_of (by omega) (by omega)
    · by_cases h3 : c.toNat < 65536
      · refine ⟨224 + c.toNat / 4096, [128 + (c.toNat / 64) % 64, 128 + c.toNat % 64],
          ?_, ?_, ?_, by simp⟩
        · simp [utf8Char, h1, h2, h3]
        · exact isCont_false_of (by omega) (Or.inr (by omega))
        · intro x hx
          simp at hx
          rcases hx with hx | hx <;> subst hx <;> exact isCont_true_of (by omega) (by omega)
      · refine ⟨240 + c.toNat / 262144,
          [128 + (c.toNat / 4096) % 64, 128 + (c.toNat / 64) % 64, 128 + c.toNat % 64],
          ?_, ?_, ?_, by simp⟩
        · simp [utf8Char, h1, h2, h3]
        · exact isCont_false_of (by omega) (Or.inr (by omega))
        · intro x hx
          simp at hx
          rcases hx with hx | hx | hx <;> subst hx <;> exact isCont_true_of (by omega) (by omega)

theorem utf8Char_ne_nil (c : Char) : utf8Char c ≠ [] := by
  obtain ⟨b, bs, henc, -, -, -⟩ := utf8Char_spec c
  simp [henc]

theorem utf8Char_length_le (c : Char) : (utf8Char c).length ≤ 4 := by
  obtain ⟨b, bs, henc, -, -, hlen⟩ := utf8Char_spec c
  simp [henc]
  omega

theorem utf8Char_length_pos (c : Char) : 1 ≤ (utf8Char c).length := by
  obtain ⟨b, bs, henc, -, -, -⟩ := utf8Char_spec c
  simp [henc]

theorem utf8Str_cons (c : Char) (s : List Char) :
    utf8Str (c :: s) = utf8Char c ++ utf8Str s := by
  simp [utf8Str]

theorem utf8Str_append (s t : List Char) :
    utf8Str (s ++ t) = utf8Str s ++ utf8Str t := by
  simp [utf8Str]

theorem utf8Str_ne_nil {s : List Char} (h : s ≠ []) : utf8Str s ≠ [] := by
  cases s with
  | nil => exact absurd rfl h
  | cons c rest =>
    rw [utf8Str_cons]
    simp [utf8Char_ne_nil c]

theorem byteAt_mem : ∀ (l : List Nat) (i : Nat), i < l.length → byteAt l i ∈ l
  | a :: l, 0, _ => List.mem_cons_self a l
  | a :: l, i + 1, h =>
      List.mem_cons_of_mem a (byteAt_mem l i (by simpa using h))

theorem byteAt_append_left {l1 l2 : List Nat} {i : Nat} (h : i < l1.length) :
    byteAt (l1 ++ l2) i = byteAt l1 i :=
  List.getD_append l1 l2 0 i h

theorem byteAt_append_right {l1 l2 : List Nat} {i : Nat} (h : l1.length ≤ i) :
    byteAt (l1 ++ l2) i = byteAt l2 (i - l1.length) :=
  List.getD_append_right l1 l2 0 i h

/-- A byte index that carries a non-continuation byte is a code-point
boundary: the string splits there into a prefix and a non-empty suffix. -/
theorem boundary_of_not_cont :
    ∀ (s : List Char) (i : Nat), i < (utf8Str s).length →
      isCont (byteAt (utf8Str s) i) = false →
      ∃ s1 s2, s = s1 ++ s2 ∧ s2 ≠ [] ∧ i = (utf8Str s1).length := by
  intro s
  induction s with
  | nil =>
    intro i hi
    simp [utf8Str] at hi
  | cons c rest ih =>
    intro i hi hnc
    obtain ⟨b, bs, henc, hb, hbs, -⟩ := utf8Char_spec c
    by_cases hcase : i < (utf8Char c).length
    · rcases Nat.eq_zero_or_pos i with h0 | h0
      · exact ⟨[], c :: rest, rfl, by simp, by simp [utf8Str, h0]⟩
      · exfalso
        have hbyte : byteAt (utf8Str (c :: rest)) i = byteAt (utf8Char c) i := by
          rw [utf8Str_cons]
          exact byteAt_append_left hcase
        have hmem : byteAt (utf8Char c) i ∈ bs := by
          rw [henc]
          obtain ⟨j, rfl⟩ : ∃ j, i = j + 1 := ⟨i - 1, by omega⟩
          have hj : j < bs.length := by
            rw [henc] at hcase
            simpa using hcase
          exact byteAt_mem bs j hj
        have := hbs _ hmem
        rw [hbyte] at hnc
        rw [this] at hnc
        exact Bool.true_eq_false ▸ (by simp at hnc)
    · push_neg at hcase
      have hbyte : byteAt (utf8Str (c :: rest)) i =
          byteAt (utf8Str rest) (i - (utf8Char c).length) := by
        rw [utf8Str_cons]
        exact byteAt_append_right hcase
      have hlt : i - (utf8Char c).length < (utf8Str rest).length := by
        rw [utf8Str_cons] at hi
        simp at hi
        omega
      obtain ⟨s1, s2, hsp, hs2, hie⟩ := ih (i - (utf8Char c).length) hlt (hbyte ▸ hnc)
      refine ⟨c :: s1, s2, by simp [hsp], hs2, ?_⟩
      rw [utf8Str_cons]
      simp
      omega

/-- Conversely, the byte at any interior code-point boundary is not a
continuation byte. -/
theorem not_cont_at_boundary (s1 s2 : List Char) (h : s2 ≠ []) :
    isCont (byteAt (utf8Str (s1 ++ s2)) (utf8Str s1).length) = false := by
  rw [utf8Str_append, byteAt_append_right (Nat.le_refl _), Nat.sub_self]
  cases s2 with
  | nil => exact absurd rfl h
  | cons c rest =>
    obtain ⟨b, bs, henc, hb, -, -⟩ := utf8Char_spec c
    rw [utf8Str_cons, henc]
    simpa [byteAt] using hb

theorem retreat_le (enc : List Nat) : ∀ k, retreat enc k ≤ k := by
  intro k
  induction k with
  | zero => exact Nat.le_refl 0
  | succ k ih =>
    rw [retreat]
    split
    · exact Nat.le_trans ih (Nat.le_succ k)
    · exact Nat.le_refl _

theorem retreat_not_cont (enc : List Nat) :
    ∀ k, retreat enc k = 0 ∨ isCont (byteAt enc (retreat enc k)) = false := by
  intro k
  induction k with
  | zero => exact Or.inl rfl
  | succ k ih =>
    rw [retreat]
    by_cases h : isCont (byteAt enc (k + 1)) = true
    · rw [if_pos h]
      exact ih
    · rw [if_neg h]
      exact Or.inr (by simpa using h)

theorem retreat_above_cont (enc : List Nat) :
    ∀ k m, retreat enc k < m → m ≤ k → isCont (byteAt enc m) = true := by
  intro k
  induction k with
  | zero =>
    intro m h1 h2
    omega
  | succ k ih =>
    intro m h1 h2
    by_cases h : isCont (byteAt enc (k + 1)) = true
    · rw [retreat, if_pos h] at h1
      rcases Nat.lt_or_ge m (k + 1) with hm | hm
      · exact ih m h1 (by omega)
      · have : m = k + 1 := by omega
        rw [this]
        exact h
    · rw [retreat, if_neg h] at h1
      omega

/-- The split point chosen by the retreat loop is a code-point boundary:
it cuts the input into a non-empty prefix of whole characters (at most 75
bytes) and a non-empty suffix. -/
theorem findSplit_boundary (s : List Char) (h : 75 < (utf8Str s).length) :
    ∃ s1 s2, s = s1 ++ s2 ∧ s1 ≠ [] ∧ s2 ≠ [] ∧
      (utf8Str s1).length = findSplit (utf8Str s) ∧
      1 ≤ findSplit (utf8Str s) ∧ findSplit (utf8Str s) ≤ 75 := by
  have hj75 : findSplit (utf8Str s) ≤ 75 := retreat_le (utf8Str s) 75
  cases s with
  | nil => simp [utf8Str] at h
  | cons c rest =>
    obtain ⟨b, bs, henc, hb, hbs, hbsl⟩ := utf8Char_spec c
    have hlenc_le : (utf8Char c).length ≤ 4 := utf8Char_length_le c
    have hlenc_pos : 1 ≤ (utf8Char c).length := utf8Char_length_pos c
    have hrest : rest ≠ [] := by
      intro he
      subst he
      rw [utf8Str_cons] at h
      simp [utf8Str] at h
      omega
    have hp : isCont (byteAt (utf8Str (c :: rest)) (utf8Str [c]).length) = false := by
      have := not_cont_at_boundary [c] rest hrest
      simpa using this
    have hlen_single : (utf8Str [c]).length = (utf8Char c).length := by
      simp [utf8Str]
    have hjp : (utf8Char c).length ≤ findSplit (utf8Str (c :: rest)) := by
      by_contra hlt
      push_neg at hlt
      have hcont := retreat_above_cont (utf8Str (c :: rest)) 75 (utf8Char c).length hlt
        (by omega)
      rw [hlen_single] at hp
      rw [hcont] at hp
      simp at hp
    have hj1 : 1 ≤ findSplit (utf8Str (c :: rest)) := Nat.le_trans hlenc_pos hjp
    have hnc : isCont (byteAt (utf8Str (c :: rest)) (findSplit (utf8Str (c :: rest)))) = false := by
      rcases retreat_not_cont (utf8Str (c :: rest)) 75 with h0 | hok
      · exact absurd (show findSplit (utf8Str (c :: rest)) = 0 from h0) (by omega)
      · exact hok
    obtain ⟨s1, s2, hsp, hs2, hie⟩ :=
      boundary_of_not_cont (c :: rest) (findSplit (utf8Str (c :: rest))) (by omega) hnc
    have hs1 : s1 ≠ [] := by
      intro he
      subst he
      rw [show utf8Str ([] : List Char) = [] from rfl] at hie
      simp at hie
      omega
    exact ⟨s1, s2, hsp, hs1, hs2, hie.symm, hj1, hj75⟩

/-- Lemma: `foldChunksAux` on encoder output (with enough fuel) cuts the input
string into non-empty character groups whose encodings are the chunks,
each at most 75 bytes. -/
theorem foldChunksAux_parts :
    ∀ (n : Nat) (s : List Char), (utf8Str s).length ≤ n → s ≠ [] →
      ∃ parts : List (List Char), foldChunksAux n (utf8Str s) = parts.map utf8Str ∧
        parts.flatten = s ∧ (∀ p ∈ parts, p ≠ []) ∧
        (∀ p ∈ parts, (utf8Str p).length ≤ 75) := by
  intro n
  induction n with
  | zero =>
    intro s hle hs
    refine ⟨[s], ?_, by simp, by simpa using hs, ?_⟩
    · rw [foldChunksAux]
      simp
    · intro p hp
      simp at hp
      subst hp
      omega
  | succ n ih =>
    intro s hle hs
    by_cases h75 : (utf8Str s).length ≤ 75
    · refine ⟨[s], ?_, by simp, by simpa using hs, ?_⟩
      · rw [foldChunksAux, if_pos h75]
        simp
      · intro p hp
        simp at hp
        subst hp
        exact h75
    · push_neg at h75
      obtain ⟨s1, s2, hsp, hs1, hs2, hlen1, hj1, hj75⟩ := findSplit_boundary s h75
      have hsplit_bytes : utf8Str s = utf8Str s1 ++ utf8Str s2 := by
        rw [hsp, utf8Str_append]
      have htake : (utf8Str s).take (findSplit (utf8Str s)) = utf8Str s1 := by
        rw [← hlen1, hsplit_bytes, List.take_left]
      have hdrop : (utf8Str s).drop (findSplit (utf8Str s)) = utf8Str s2 := by
        rw [← hlen1, hsplit_bytes, List.drop_left]
      have hfold : foldChunksAux (n + 1) (utf8Str s) =
          (utf8Str s).take (findSplit (utf8Str s)) ::
            foldChunksAux n ((utf8Str s).drop (findSplit (utf8Str s))) := by
        rw [foldChunksAux, if_neg (by omega), if_neg (by omega)]
      have hlen2 : (utf8Str s2).length ≤ n := by
        have : (utf8Str s).length = (utf8Str s1).length + (utf8Str s2).length := by
          rw [hsplit_bytes]
          simp
        omega
      obtain ⟨parts2, hmap2, hflat2, hne2, hle2⟩ := ih s2 hlen2 hs2
      refine ⟨s1 :: parts2, ?_, ?_, ?_, ?_⟩
      · rw [hfold, htake, hdrop, hmap2]
        rfl
      · simp [hflat2, hsp]
      · intro p hp
        rcases List.mem_cons.mp hp with hp | hp
        · subst hp
          exact hs1
        · exact hne2 p hp
      · intro p hp
        rcases List.mem_cons.mp hp with hp | hp
        · subst hp
          omega
        · exact hle2 p hp

theorem foldChunks_parts (s : List Char) (hs : s ≠ []) :
    ∃ parts : List (List Char), foldChunks (utf8Str s) = parts.map utf8Str ∧
      parts.flatten = s ∧ (∀ p ∈ parts, p ≠ []) ∧
      (∀ p ∈ parts, (utf8Str p).length ≤ 75) :=
  foldChunksAux_parts (utf8Str s).length s (Nat.le_refl _) hs

/-- One decode step inverts the encoding of one code point. -/
theorem utf8Step_char (c : Char) (tail : List Nat) :
    ∃ b bs, utf8Char c = b :: bs ∧ utf8Step b (bs ++ tail) = (c, tail) := by
  have hn := char_toNat_lt c
  by_cases h1 : c.toNat < 128
  · refine ⟨c.toNat, [], by simp [utf8Char, h1], ?_⟩
    rw [show (([] : List Nat) ++ tail) = tail from rfl]
    rw [utf8Step.eq_def, if_pos h1, Char.ofNat_toNat]
  · by_cases h2 : c.toNat < 2048
    · refine ⟨192 + c.toNat / 64, [128 + c.toNat % 64], by simp [utf8Char, h1, h2], ?_⟩
      rw [show ([128 + c.toNat % 64] ++ tail) = (128 + c.toNat % 64) :: tail from rfl]
      rw [utf8Step.eq_def, if_neg (by omega), if_neg (by omega), if_pos (by omega)]
      show (Char.ofNat ((192 + c.toNat / 64 - 192) * 64 + (128 + c.toNat % 64 - 128)), tail) =
        (c, tail)
      rw [show (192 + c.toNat / 64 - 192) * 64 + (128 + c.toNat % 64 - 128) = c.toNat from by
        omega]
      rw [Char.ofNat_toNat]
    · by_cases h3 : c.toNat < 65536
      · refine ⟨224 + c.toNat / 4096, [128 + (c.toNat / 64) % 64, 128 + c.toNat % 64],
          by simp [utf8Char, h1, h2, h3], ?_⟩
        rw [show ([128 + (c.toNat / 64) % 64, 128 + c.toNat % 64] ++ tail) =
          (128 + (c.toNat / 64) % 64) :: (128 + c.toNat % 64) :: tail from rfl]
        rw [utf8Step.eq_def, if_neg (by omega), if_neg (by omega), if_neg (by omega),
          if_pos (by omega)]
        show (Char.ofNat ((224 + c.toNat / 4096 - 224) * 4096 +
          (128 + (c.toNat / 64) % 64 - 128) * 64 + (128 + c.toNat % 64 - 128)), tail) = (c, tail)
        rw [show (224 + c.toNat / 4096 - 224) * 4096 + (128 + (c.toNat / 64) % 64 - 128) * 64 +
          (128 + c.toNat % 64 - 128) = c.toNat from by omega]
        rw [Char.ofNat_toNat]
      · refine ⟨240 + c.toNat / 262144, [128 + (c.toNat / 4096) % 64,
          128 + (c.toNat / 64) % 64, 128 + c.toNat % 64], by simp [utf8Char, h1, h2, h3], ?_⟩
        rw [show ([128 + (c.toNat / 4096) % 64, 128 + (c.toNat / 64) % 64,
          128 + c.toNat % 64] ++ tail) = (128 + (c.toNat / 4096) % 64) ::
            (128 + (c.toNat / 64) % 64) :: (128 + c.toNat % 64) :: tail from rfl]
        rw [utf8Step.eq_def, if_neg (by omega), if_neg (by omega), if_neg (by omega),
          if_neg (by omega)]
        show (Char.ofNat ((240 + c.toNat / 262144 - 240) * 262144 +
          (128 + (c.toNat / 4096) % 64 - 128) * 4096 +
          (128 + (c.toNat / 64) % 64 - 128) * 64 + (128 + c.toNat % 64 - 128)), tail) = (c, tail)
        rw [show (240 + c.toNat / 262144 - 240) * 262144 +
          (128 + (c.toNat / 4096) % 64 - 128) * 4096 +
          (128 + (c.toNat / 64) % 64 - 128) * 64 + (128 + c.toNat % 64 - 128) = c.toNat from by
            omega]
        rw [Char.ofNat_toNat]

/-- Decoding inverts encoding one code point at a time, spending one unit
of fuel. -/
theorem utf8DecodeAux_char (c : Char) (fuel : Nat) (tail : List Nat) :
    utf8DecodeAux (fuel + 1) (utf8Char c ++ tail) = c :: utf8DecodeAux fuel tail := by
  obtain ⟨b, bs, henc, hstep⟩ := utf8Step_char c tail
  rw [henc]
  rw [show ((b :: bs) ++ tail) = b :: (bs ++ tail) from rfl]
  rw [utf8DecodeAux, hstep]

theorem utf8DecodeAux_utf8Str :
    ∀ (s : List Char) (fuel : Nat), (utf8Str s).length ≤ fuel →
      utf8DecodeAux fuel (utf8Str s) = s := by
  intro s
  induction s with
  | nil =>
    intro fuel h
    rw [show utf8Str ([] : List Char) = [] from rfl]
    cases fuel <;> rfl
  | cons c rest ih =>
    intro fuel h
    have hlenc : 1 ≤ (utf8Char c).length := utf8Char_length_pos c
    have hlen : (utf8Str (c :: rest)).length =
        (utf8Char c).length + (utf8Str rest).length := by
      rw [utf8Str_cons]
      simp
    obtain ⟨f, rfl⟩ : ∃ f, fuel = f + 1 := ⟨fuel - 1, by omega⟩
    rw [utf8Str_cons, utf8DecodeAux_char, ih f (by omega)]

theorem utf8Decode_utf8Str (s : List Char) : utf8Decode (utf8Str s) = s :=
  utf8DecodeAux_utf8Str s (utf8Str s).length (Nat.le_refl _)

/-- Shared description of `ics_fold_line` on lines longer than 75 octets:
the output is the CRLF-space join of the decoded chunks, the chunks are the
encodings of a partition of the input into non-empty character groups, and
every chunk is at most 75 octets. -/
theorem ics_fold_line_spec (s : List Char) (h : 75 < (utf8Str s).length) :
    ∃ parts : List (List Char),
      foldChunks (utf8Str s) = parts.map utf8Str ∧ parts.flatten = s ∧
      (∀ p ∈ parts, p ≠ []) ∧ (∀ p ∈ parts, (utf8Str p).length ≤ 75) ∧
      ics_fold_line s = List.intercalate ("\r\n ".data) parts := by
  have hs : s ≠ [] := by
    intro he
    subst he
    rw [show utf8Str ([] : List Char) = [] from rfl] at h
    simp at h
  obtain ⟨parts, hmap, hflat, hne, hle⟩ := foldChunks_parts s hs
  refine ⟨parts, hmap, hflat, hne, hle, ?_⟩
  rw [ics_fold_line, if_neg (by omega), hmap, List.map_map]
  congr 1
  rw [List.map_congr_left (f := utf8Decode ∘ utf8Str) (g := id)
    (fun p _ => utf8Decode_utf8Str p), List.map_id]

/-- C2: for any line whose UTF-8 encoding exceeds 75 bytes, every chunk
boundary chosen by `ics_fold_line` falls on a UTF-8 code-point boundary
(the chunks are exactly the encodings of a partition of the input
characters), and stripping the CRLF-plus-space fold markers from the
output reproduces the original line. -/
theorem ics_fold_line_codepoint_boundaries (s : List Char)
    (h : 75 < (utf8Str s).length) :
    ∃ parts : List (List Char),
      foldChunks (utf8Str s) = parts.map utf8Str ∧ parts.flatten = s ∧
      ics_fold_line s = List.intercalate ("\r\n ".data) parts := by
  obtain ⟨parts, h1, h2, -, -, h5⟩ := ics_fold_line_spec s h
  exact ⟨parts, h1, h2, h5⟩

theorem ics_fold_line_codepoint_boundaries_witness :
    75 < (utf8Str (List.replicate 40 'é')).length ∧
      ∃ parts : List (List Char),
        foldChunks (utf8Str (List.replicate 40 'é')) = parts.map utf8Str ∧
        parts.flatten = List.replicate 40 'é' ∧
        ics_fold_line (List.replicate 40 'é') =
          List.intercalate ("\r\n ".data) parts :=
  ⟨by decide, ics_fold_line_codepoint_boundaries (List.replicate 40 'é') (by decide)⟩

/-- C10: on every string long enough to enter the folding loop, the chosen
split point is at least 1 — the first byte of a valid UTF-8 encoding is
never a continuation byte — and consequently every emitted chunk is
non-empty, so the remaining byte buffer strictly shrinks in each iteration
and the Python loop terminates. -/
theorem ics_fold_line_split_progress (s : List Char)
    (h : 75 < (utf8Str s).length) :
    1 ≤ findSplit (utf8Str s) ∧ ∀ chunk ∈ foldChunks (utf8Str s), chunk ≠ [] := by
  obtain ⟨s1, s2, hsp, hs1, hs2, hlen, hj1, hj75⟩ := findSplit_boundary s h
  refine ⟨hj1, ?_⟩
  obtain ⟨parts, hmap, -, hne, -, -⟩ := ics_fold_line_spec s h
  intro chunk hchunk
  rw [hmap] at hchunk
  obtain ⟨p, hp, rfl⟩ := List.mem_map.mp hchunk
  exact utf8Str_ne_nil (hne p hp)

theorem ics_fold_line_split_progress_witness :
    75 < (utf8Str (List.replicate 100 'b')).length ∧
      (1 ≤ findSplit (utf8Str (List.replicate 100 'b')) ∧
        ∀ chunk ∈ foldChunks (utf8Str (List.replicate 100 'b')), chunk ≠ []) :=
  ⟨by decide, ics_fold_line_split_progress (List.replicate 100 'b') (by decide)⟩

/-- C7 counterexample: folding a 150-character ASCII line yields a second
physical line of 76 octets — the 75-byte chunk plus the single leading fold
space — so the claim that every CRLF-separated segment, including the
leading space, is at most 75 octets fails. -/
theorem fold_physical_line_76_octets :
    ∃ seg ∈ splitCRLF (ics_fold_line (List.replicate 150 'a')),
      75 < (utf8Str seg).length := by
  decide

/-- C7 (amended): every chunk produced by `ics_fold_line` is at most 75
octets; the physical continuation lines additionally carry the single
leading fold space and are therefore at most 76 octets. -/
theorem ics_fold_line_chunk_octets (s : List Char) :
    ∃ parts : List (List Char),
      ics_fold_line s = List.intercalate ("\r\n ".data) parts ∧
      (∀ p ∈ parts, (utf8Str p).length ≤ 75) ∧
      (∀ p ∈ parts, (utf8Str (' ' :: p)).length ≤ 76) := by
  have hsp : (utf8Char ' ').length = 1 := rfl
  by_cases h : (utf8Str s).length ≤ 75
  · refine ⟨[s], ?_, ?_, ?_⟩
    · rw [ics_fold_line, if_pos h]
      simp [List.intercalate]
    · intro p hp
      simp at hp
      subst hp
      exact h
    · intro p hp
      simp at hp
      subst hp
      rw [utf8Str_cons]
      simp
      omega
  · push_neg at h
    obtain ⟨parts, -, -, -, hle, hout⟩ := ics_fold_line_spec s h
    refine ⟨parts, hout, hle, ?_⟩
    intro p hp
    have := hle p hp
    rw [utf8Str_cons]
    simp
    omega

open List

/-- Known-answer test pinning down the SHA-256 model (FIPS 180-4 vector
for `"abc"`). -/
theorem sha256hex_abc :
    sha256hex (utf8Str ("abc".data)) =
      ("ba7816bf8f01cfea414140de5dae2223b00361a396177a9cb410ff61f20015ad".data) := by
  decide

/-- C4: `generate_uid` is the first 16 hex characters of the SHA-256 of
the UTF-8 bytes of `"{month:02d}-{day:02d}-{name}"` followed by
`"@touhou-calendar"`, and any two records agreeing on `(month, day, name)`
receive identical UIDs regardless of their other fields. -/
theorem generate_uid_spec :
    (∀ e : CalendarEvent, generate_uid e =
      (sha256hex (utf8Str (pad2 e.month ++ ("-".data) ++ pad2 e.day ++ ("-".data) ++
        e.name))).take 16 ++ ("@touhou-calendar".data)) ∧
    (∀ e1 e2 : CalendarEvent, e1.month = e2.month → e1.day = e2.day →
      e1.name = e2.name → generate_uid e1 = generate_uid e2) := by
  refine ⟨fun e => rfl, ?_⟩
  intro e1 e2 hm hd hn
  unfold generate_uid
  rw [hm, hd, hn]

theorem generate_uid_spec_witness :
    generate_uid miyakoEvent = generate_uid
      ⟨2, 29, ("Miyako Day".data), ("other message".data), ("other".data),
        some ("short".data), [("Reimu".data)], [Yaml.null]⟩ :=
  generate_uid_spec.2 miyakoEvent _ rfl rfl rfl

/-- C1: building the calendar from the single Miyako Day record (month 2,
day 29, message `M`, explanation `E`) produces exactly the expected
VCALENDAR text, whose CRLF-separated lines contain exactly one
`BEGIN:VEVENT`/`END:VEVENT` pair and include the `DTSTART`, `SUMMARY`,
`DESCRIPTION` (with literal `\n\n`) and `RRULE` lines the claim names. -/
theorem build_ics_miyako :
    build_ics [miyakoEvent] = Except.ok miyakoExpectedIcs ∧
    (splitCRLF miyakoExpectedIcs).count ("BEGIN:VEVENT".data) = 1 ∧
    (splitCRLF miyakoExpectedIcs).count ("END:VEVENT".data) = 1 ∧
    ("DTSTART;VALUE=DATE:20240229".data) ∈ splitCRLF miyakoExpectedIcs ∧
    ("SUMMARY:Miyako Day".data) ∈ splitCRLF miyakoExpectedIcs ∧
    ("DESCRIPTION:M\\n\\nE".data) ∈ splitCRLF miyakoExpectedIcs ∧
    ("RRULE:FREQ=YEARLY".data) ∈ splitCRLF miyakoExpectedIcs := by
  constructor
  · rfl
  · decide

theorem strLE_refl : ∀ s : List Char, strLE s s = true := by
  intro s
  induction s with
  | nil => rfl
  | cons a as ih => simp [strLE, lt_irrefl, ih]

theorem strLE_total : ∀ s t : List Char, strLE s t = true ∨ strLE t s = true := by
  intro s
  induction s with
  | nil => intro t; left; rfl
  | cons a as ih =>
    intro t
    cases t with
    | nil => right; rfl
    | cons b bs =>
      rcases lt_trichotomy a b with h | h | h
      · left; simp [strLE, h]
      · subst h
        rcases ih bs with h2 | h2
        · left; simp [strLE, lt_irrefl, h2]
        · right; simp [strLE, lt_irrefl, h2]
      · right; simp [strLE, h]

theorem strLE_trans :
    ∀ s t u : List Char, strLE s t = true → strLE t u = true → strLE s u = true := by
  intro s
  induction s with
  | nil => intro t u _ _; rfl
  | cons a as ih =>
    intro t u hst htu
    cases t with
    | nil => simp [strLE] at hst
    | cons b bs =>
      cases u with
      | nil => simp [strLE] at htu
      | cons c cs =>
        rcases lt_trichotomy a b with hab | hab | hab
        · rcases lt_trichotomy b c with hbc | hbc | hbc
          · simp [strLE, lt_trans hab hbc]
          · subst hbc
            simp [strLE, hab]
          · rw [strLE, if_neg (asymm hbc), if_pos hbc] at htu
            simp at htu
        · subst hab
          rw [strLE, if_neg (lt_irrefl a), if_neg (lt_irrefl a)] at hst
          rcases lt_trichotomy a c with hac | hac | hac
          · simp [strLE, hac]
          · subst hac
            rw [strLE, if_neg (lt_irrefl a), if_neg (lt_irrefl a)] at htu
            simp [strLE, lt_irrefl, ih bs cs hst htu]
          · rw [strLE, if_neg (asymm hac), if_pos hac] at htu
            simp at htu
        · rw [strLE, if_neg (asymm hab), if_pos hab] at hst
          simp at hst

theorem keyLE_of_eventKey_eq {a b : CalendarEvent} (h : eventKey a = eventKey b) :
    keyLE a b = true := by
  obtain ⟨h1, h2, h3⟩ : a.month = b.month ∧ a.day = b.day ∧ a.name = b.name := by
    simpa [eventKey, Prod.ext_iff] using h
  simp [keyLE, h1, h2, h3, lt_irrefl, strLE_refl]

theorem keyLE_total : ∀ x y : CalendarEvent, keyLE x y = true ∨ keyLE y x = true := by
  intro x y
  rcases lt_trichotomy x.month y.month with h | h | h
  · left; simp [keyLE, h]
  · rcases lt_trichotomy x.day y.day with h2 | h2 | h2
    · left; simp [keyLE, h, h2, lt_irrefl]
    · rcases strLE_total x.name y.name with h3 | h3
      · left; simp [keyLE, h, h2, lt_irrefl, h3]
      · right; simp [keyLE, h, h2, lt_irrefl, h3]
    · right; simp [keyLE, h, h2, lt_irrefl]
  · right; simp [keyLE, h]

theorem keyLE_iff (x y : CalendarEvent) :
    keyLE x y = true ↔ (x.month < y.month ∨ (x.month = y.month ∧
      (x.day < y.day ∨ (x.day = y.day ∧ strLE x.name y.name = true)))) := by
  unfold keyLE
  split_ifs with h1 h2 h3 h4
  · simp [h1]
  · simp [not_lt_of_gt h2, ne_of_gt h2]
  · have hm : x.month = y.month := le_antisymm (not_lt.mp h2) (not_lt.mp h1)
    simp [h1, hm, h3]
  · have hm : x.month = y.month := le_antisymm (not_lt.mp h2) (not_lt.mp h1)
    simp [h1, hm, not_lt_of_gt h4, ne_of_gt h4]
  · have hm : x.month = y.month := le_antisymm (not_lt.mp h2) (not_lt.mp h1)
    have hd : x.day = y.day := le_antisymm (not_lt.mp h4) (not_lt.mp h3)
    simp [h1, h3, hm, hd]

theorem keyLE_trans :
    ∀ x y z : CalendarEvent, keyLE x y = true → keyLE y z = true → keyLE x z = true := by
  intro x y z hxy hyz
  rw [keyLE_iff] at hxy hyz ⊢
  rcases hxy with h1 | ⟨e1, hd1⟩
  · rcases hyz with h2 | ⟨e2, hd2⟩
    · exact Or.inl (lt_trans h1 h2)
    · exact Or.inl (e2 ▸ h1)
  · rcases hyz with h2 | ⟨e2, hd2⟩
    · exact Or.inl (e1 ▸ h2)
    · refine Or.inr ⟨e1.trans e2, ?_⟩
      rcases hd1 with d1 | ⟨ed1, hn1⟩
      · rcases hd2 with d2 | ⟨ed2, hn2⟩
        · exact Or.inl (lt_trans d1 d2)
        · exact Or.inl (ed2 ▸ d1)
      · rcases hd2 with d2 | ⟨ed2, hn2⟩
        · exact Or.inl (ed1 ▸ d2)
        · exact Or.inr ⟨ed1.trans ed2, strLE_trans _ _ _ hn1 hn2⟩

/-- C5: the loader's sort is the stable ascending sort by
`(month, day, name)`: the output is a permutation of the input, pairwise
ordered by the key, and for every key value the equal-key events keep
their input order (the filter characterization of stability); on the
spec's example the loader returns `[(1,5,A), (1,5,Z), (3,1,B)]`. -/
theorem load_events_sorted_stable :
    (∀ evs : List CalendarEvent, (sortEvents evs).Perm evs) ∧
    (∀ evs : List CalendarEvent, List.Pairwise keyRel (sortEvents evs)) ∧
    (∀ (evs : List CalendarEvent) (k : Int × Int × List Char),
      (sortEvents evs).filter (fun e => decide (eventKey e = k)) =
        evs.filter (fun e => decide (eventKey e = k))) ∧
    load_events_from
        [[some (docOf eventB31), some (docOf eventA15), some (docOf eventZ15)]] =
      Except.ok [eventA15, eventZ15, eventB31] := by
  refine ⟨fun evs => List.perm_insertionSort keyRel evs, ?_, ?_, ?_⟩
  · intro evs
    exact @List.sorted_insertionSort CalendarEvent keyRel keyRelDecidable
      ⟨keyLE_total⟩ ⟨keyLE_trans⟩ evs
  · intro evs k
    have hall : ∀ e ∈ evs.filter (fun e => decide (eventKey e = k)), eventKey e = k :=
      fun e he =>
        of_decide_eq_true (List.of_mem_filter (p := fun e => decide (eventKey e = k)) he)
    have hpw : (evs.filter (fun e => decide (eventKey e = k))).Pairwise keyRel := by
      apply List.pairwise_of_forall_mem_list
      intro a ha b hb
      exact keyLE_of_eventKey_eq ((hall a ha).trans (hall b hb).symm)
    have hsub : evs.filter (fun e => decide (eventKey e = k)) <+ sortEvents evs :=
      List.sublist_insertionSort hpw (List.filter_sublist evs)
    have hsub2 : evs.filter (fun e => decide (eventKey e = k)) <+
        (sortEvents evs).filter (fun e => decide (eventKey e = k)) := by
      have h1 := List.Sublist.filter (fun e => decide (eventKey e = k)) hsub
      rwa [List.filter_eq_self.mpr
        (fun a ha => List.of_mem_filter (p := fun e => decide (eventKey e = k)) ha)] at h1
    have hlen : (evs.filter (fun e => decide (eventKey e = k))).length =
        ((sortEvents evs).filter (fun e => decide (eventKey e = k))).length :=
      (((List.perm_insertionSort keyRel evs).filter _).length_eq).symm
    exact (List.Sublist.eq_of_length hsub2 hlen).symm
  · rfl

theorem dropWhile_self (p : Char → Bool) :
    ∀ l : List Char, (l.dropWhile p).dropWhile p = l.dropWhile p := by
  intro l
  induction l with
  | nil => rfl
  | cons c rest ih =>
    rw [List.dropWhile_cons]
    by_cases h : p c
    · simp [h, ih]
    · simp [h, List.dropWhile_cons]

theorem dropWhile_prefix_self {p : Char → Bool} {A B : List Char}
    (hA : A.dropWhile p = A) (hpre : B <+: A) : B.dropWhile p = B := by
  cases B with
  | nil => rfl
  | cons b bt =>
    obtain ⟨t, ht⟩ := hpre
    cases A with
    | nil => simp at ht
    | cons a rest =>
      have ht2 : b :: (bt ++ t) = a :: rest := ht
      injection ht2 with hb htail
      rw [List.dropWhile_cons] at hA
      by_cases hp : p a
      · rw [if_pos hp] at hA
        have hlen : (List.dropWhile p rest).length ≤ rest.length :=
          (List.dropWhile_suffix p).sublist.length_le
        rw [hA] at hlen
        simp at hlen
      · subst hb
        rw [List.dropWhile_cons, if_neg hp]

theorem pyStrip_idem (s : List Char) : pyStrip (pyStrip s) = pyStrip s := by
  unfold pyStrip
  set A := s.dropWhile isPySpace with hA
  set B := (A.reverse.dropWhile isPySpace).reverse with hB
  have hAdrop : A.dropWhile isPySpace = A := by
    rw [hA]
    exact dropWhile_self _ s
  have hBrev : B.reverse = A.reverse.dropWhile isPySpace := by
    rw [hB, List.reverse_reverse]
  have hBpre : B <+: A := by
    apply List.reverse_suffix.mp
    rw [hBrev]
    exact List.dropWhile_suffix isPySpace
  have hBdrop : B.dropWhile isPySpace = B := dropWhile_prefix_self hAdrop hBpre
  rw [hBdrop, hBrev, dropWhile_self, ← hBrev, List.reverse_reverse]

/-- C6 counterexample: for a record whose `explanation_short` is present
but empty, the rendered second description part is the trimmed escaped
`explanation` (here `E`), not the trimmed escaped `explanation_short`
(which would be empty): Python's `or` treats the empty string as absent. -/
theorem explanation_short_empty_not_used :
    emptyShortEvent.explanation_short = some [] ∧
    chosen_explanation emptyShortEvent = ("E".data) ∧
    ((description_parts emptyShortEvent).map (fun p => ics_escape (pyStrip p))).getD 1 [] =
      ("E".data) ∧
    ("E".data) ≠ ics_escape (pyStrip ([] : List Char)) := by
  refine ⟨rfl, rfl, by decide, by decide⟩

/-- C6 (amended): whenever `explanation_short` is present and non-empty,
the rendered DESCRIPTION uses it in place of `explanation`: the chosen
explanation is `explanation_short` itself and the second escaped
description part is the trimmed, escaped `explanation_short`.  (When it is
present but empty, Python's falsy `or` falls back to `explanation`.) -/
theorem explanation_short_replaces (e : CalendarEvent) (s : List Char)
    (hshort : e.explanation_short = some s) (hne : s ≠ []) :
    chosen_explanation e = s ∧
    ((description_parts e).map (fun p => ics_escape (pyStrip p))).getD 1 [] =
      ics_escape (pyStrip s) := by
  have hch : chosen_explanation e = s := by
    simp [chosen_explanation, hshort, hne]
  refine ⟨hch, ?_⟩
  rw [description_parts, hch]
  by_cases hc : e.characters = []
  · simp [hc]
    rw [pyStrip_idem]
  · simp [hc]
    rw [pyStrip_idem]

theorem explanation_short_replaces_witness :
    chosen_explanation ⟨1, 1, ("N".data), ("M".data), ("E".data), some ("S".data), [], []⟩ =
      ("S".data) ∧
    ((description_parts
        ⟨1, 1, ("N".data), ("M".data), ("E".data), some ("S".data), [], []⟩).map
      (fun p => ics_escape (pyStrip p))).getD 1 [] = ics_escape (pyStrip ("S".data)) :=
  explanation_short_replaces _ ("S".data) rfl (by decide)

/-- C8 counterexample: the same block lacking `message` yields the very
same error whether it sits in the month-1 source or the month-3 source:
the raised `KeyError` carries only the field name, so the failure does not
identify the offending block's month source. -/
theorem missing_field_error_not_month_specific :
    load_events_from [[some docNoMessage]] =
      Except.error (PyErr.keyError ("message".data)) ∧
    load_events_from [[], [], [some docNoMessage]] =
      Except.error (PyErr.keyError ("message".data)) :=
  ⟨rfl, rfl⟩

/-- C8 (amended): a block lacking any of the five required keys makes
parsing fail with the `KeyError` naming the first missing key in the
source's lookup order `month, day, name, message, explanation` (the month
source is not part of the error value), and a failing load aborts the run:
`main` propagates the error and never produces output text to write.  The
`reqInt`/`reqStr` hypotheses say only that the keys looked up before the
missing one resolve; they are the typed embedding's rendering of Python's
untyped `doc[...]` accesses. -/
theorem missing_field_aborts :
    (∀ (doc : Doc),
      ylookup doc ("month".data) = none →
      parse_event doc = Except.error (PyErr.keyError ("month".data))) ∧
    (∀ (doc : Doc) (m : Int),
      reqInt doc ("month".data) = Except.ok m →
      ylookup doc ("day".data) = none →
      parse_event doc = Except.error (PyErr.keyError ("day".data))) ∧
    (∀ (doc : Doc) (m d : Int),
      reqInt doc ("month".data) = Except.ok m →
      reqInt doc ("day".data) = Except.ok d →
      ylookup doc ("name".data) = none →
      parse_event doc = Except.error (PyErr.keyError ("name".data))) ∧
    (∀ (doc : Doc) (m d : Int) (nm : List Char),
      reqInt doc ("month".data) = Except.ok m →
      reqInt doc ("day".data) = Except.ok d →
      reqStr doc ("name".data) = Except.ok nm →
      ylookup doc ("message".data) = none →
      parse_event doc = Except.error (PyErr.keyError ("message".data))) ∧
    (∀ (doc : Doc) (m d : Int) (nm ms : List Char),
      reqInt doc ("month".data) = Except.ok m →
      reqInt doc ("day".data) = Except.ok d →
      reqStr doc ("name".data) = Except.ok nm →
      reqStr doc ("message".data) = Except.ok ms →
      ylookup doc ("explanation".data) = none →
      parse_event doc = Except.error (PyErr.keyError ("explanation".data))) ∧
    (∀ (sources : List (List (Option Doc))) (e : PyErr),
      load_events_from sources = Except.error e →
      main_run sources = Except.error e ∧
        ∀ out, main_run sources ≠ Except.ok out) := by
  refine ⟨?_, ?_, ?_, ?_, ?_, ?_⟩
  · intro doc h
    have hk : reqInt doc ("month".data) =
        Except.error (PyErr.keyError ("month".data)) := by
      simp [reqInt, h]
    unfold parse_event
    rw [hk]
    rfl
  · intro doc m h1 h
    have hk : reqInt doc ("day".data) =
        Except.error (PyErr.keyError ("day".data)) := by
      simp [reqInt, h]
    unfold parse_event
    rw [h1, hk]
    rfl
  · intro doc m d h1 h2 h
    have hk : reqStr doc ("name".data) =
        Except.error (PyErr.keyError ("name".data)) := by
      simp [reqStr, h]
    unfold parse_event
    rw [h1, h2, hk]
    rfl
  · intro doc m d nm h1 h2 h3 h
    have hk : reqStr doc ("message".data) =
        Except.error (PyErr.keyError ("message".data)) := by
      simp [reqStr, h]
    unfold parse_event
    rw [h1, h2, h3, hk]
    rfl
  · intro doc m d nm ms h1 h2 h3 h4 h
    have hk : reqStr doc ("explanation".data) =
        Except.error (PyErr.keyError ("explanation".data)) := by
      simp [reqStr, h]
    unfold parse_event
    rw [h1, h2, h3, h4, hk]
    rfl
  · intro sources e hload
    have hmain : main_run sources = Except.error e := by
      unfold main_run
      rw [hload]
      rfl
    refine ⟨hmain, ?_⟩
    intro out hout
    rw [hmain] at hout
    exact Except.noConfusion hout

theorem missing_field_aborts_witness :
    parse_event [] = Except.error (PyErr.keyError ("month".data)) ∧
    parse_event docNoMessage = Except.error (PyErr.keyError ("message".data)) ∧
    (main_run [[some docNoMessage]] = Except.error (PyErr.keyError ("message".data)) ∧
      ∀ out, main_run [[some docNoMessage]] ≠ Except.ok out) :=
  ⟨missing_field_aborts.1 [] rfl,
   missing_field_aborts.2.2.2.1 docNoMessage 1 5 ("A".data) rfl rfl rfl rfl,
   missing_field_aborts.2.2.2.2.2 [[some docNoMessage]]
     (PyErr.keyError ("message".data)) rfl⟩

/-- C9: a block whose `characters` (respectively `citations`) field is
present but not a sequence parses successfully and the corresponding field
of the event record is the empty list - the defensive coercion of
src/main.py lines 28-34.  The citations part assumes only that the
`characters` extraction succeeds (`asStrList (rawCharacters doc) = some cs`),
which holds when `characters` is absent, itself not a sequence, or a
sequence of strings - so blocks where both fields are non-sequences are
covered by both parts; the `reqInt`/`reqStr`/`asStrList` hypotheses are the
typed embedding's rendering of Python's untyped field accesses. -/
theorem nonseq_fields_coerced :
    (∀ (doc : Doc) (m d : Int) (nm ms ex : List Char) (v : Yaml),
      reqInt doc ("month".data) = Except.ok m →
      reqInt doc ("day".data) = Except.ok d →
      reqStr doc ("name".data) = Except.ok nm →
      reqStr doc ("message".data) = Except.ok ms →
      reqStr doc ("explanation".data) = Except.ok ex →
      ylookup doc ("characters".data) = some v →
      (∀ xs, v ≠ Yaml.seq xs) →
      ∃ ev, parse_event doc = Except.ok ev ∧ ev.characters = []) ∧
    (∀ (doc : Doc) (m d : Int) (nm ms ex : List Char) (cs : List (List Char)) (w : Yaml),
      reqInt doc ("month".data) = Except.ok m →
      reqInt doc ("day".data) = Except.ok d →
      reqStr doc ("name".data) = Except.ok nm →
      reqStr doc ("message".data) = Except.ok ms →
      reqStr doc ("explanation".data) = Except.ok ex →
      asStrList (rawCharacters doc) = some cs →
      ylookup doc ("citations".data) = some w →
      (∀ xs, w ≠ Yaml.seq xs) →
      ∃ ev, parse_event doc = Except.ok ev ∧ ev.citations = [] ∧ ev.characters = cs) := by
  constructor
  · intro doc m d nm ms ex v h1 h2 h3 h4 h5 hv hns
    rcases v with _ | n | s2 | xs
    case seq => exact absurd rfl (hns xs)
    all_goals
      have hraw : rawCharacters doc = [] := by
        simp [rawCharacters, hv]
    all_goals
      refine ⟨⟨m, d, nm, ms, ex,
        (match ylookup doc ("explanation_short".data) with
          | some (Yaml.str s) => some s | _ => none), [], rawCitations doc⟩, ?_, rfl⟩
    all_goals (unfold parse_event; rw [h1, h2, h3, h4, h5, hraw]; rfl)
  · intro doc m d nm ms ex cs w h1 h2 h3 h4 h5 hcs hw hns
    rcases w with _ | n | s2 | xs
    case seq => exact absurd rfl (hns xs)
    all_goals
      have hraw : rawCitations doc = [] := by
        simp [rawCitations, hw]
    all_goals
      refine ⟨⟨m, d, nm, ms, ex,
        (match ylookup doc ("explanation_short".data) with
          | some (Yaml.str s) => some s | _ => none), cs, []⟩, ?_, rfl, rfl⟩
    all_goals (unfold parse_event; rw [h1, h2, h3, h4, h5, hcs, hraw]; rfl)

theorem nonseq_fields_coerced_witness :
    (∃ ev, parse_event docCharsNotList = Except.ok ev ∧ ev.characters = []) ∧
    (∃ ev, parse_event docBothNonSeq = Except.ok ev ∧ ev.citations = [] ∧
      ev.characters = []) :=
  ⟨nonseq_fields_coerced.1 docCharsNotList 1 2 ("N".data) ("m".data) ("e".data)
      (Yaml.str ("not a list".data)) rfl rfl rfl rfl rfl rfl
      (fun xs h => Yaml.noConfusion h),
   nonseq_fields_coerced.2 docBothNonSeq 1 2 ("N".data) ("m".data) ("e".data) []
      (Yaml.str ("nope".data)) rfl rfl rfl rfl rfl rfl rfl
      (fun xs h => Yaml.noConfusion h)⟩
